import Mathlib

/-!
# regview: triple-buffer frame hand-off and depth colouring

A shallow embedding of `examples/regview.c`: the depth callback `depth_cb`
(gradient lookup and banded colour ramp written into `depth_mid`), the
video callback `rgb_cb` (assertion, buffer recycling), the consumer side
`DrawGLScene` (label rotation) and `idle` (wait and redraw policy), and the
gradient table initialisation of `main`.

Buffers are identified by their address; memory maps a buffer and a byte
offset to the byte stored there.  The OpenGL calls, the frame-rate
bookkeeping of `DrawGLScene` and the optional `dump` to disk do not touch
the labels, the flags or the buffers and are left out.
-/

namespace Regview

/-! ## Data model -/

/-- Buffer identity: the address returned by one `malloc` of `main`. -/
abbrev Ptr := Nat

/-- Byte memory: buffer identity, then byte offset inside that buffer. -/
abbrev Mem := Ptr → Nat → Nat

/-- Store of one `uint8_t`: `p[off] = v`. -/
def store (m : Mem) (p : Ptr) (off v : Nat) : Mem :=
  fun q j => if q = p ∧ j = off then v % 256 else m q j

/-- Value of a C `int` (32 bits, two's complement) holding `x` modulo
`2^32`. -/
def int_wrap (x : Int) : Int :=
  (x + 2 ^ 31) % 2 ^ 32 - 2 ^ 31

/-- The `++` of a C `int`: `x + 1` wherever C defines the result (below
`INT_MAX = 2^31 - 1`).  At `INT_MAX` the increment overflows, which C leaves
undefined; the function is made total there by the wrap to `-2^31` of the
compiled increment, and a statement that depends on a counter's value says
that its increments do not overflow. -/
def int_incr (x : Int) : Int :=
  int_wrap (x + 1)

/-- Globals of `regview.c` taking part in the frame hand-off, the video
buffer registered with the device by `freenect_set_video_buffer`, and the
buffer memory. -/
structure State where
  depth_mid : Ptr
  depth_front : Ptr
  rgb_back : Ptr
  rgb_mid : Ptr
  rgb_front : Ptr
  got_rgb : Int
  got_depth : Int
  video_buffer : Ptr
  mem : Mem

/-! ## Producer side -/

/-- Read of `t_gamma[d]`; `none` when `d` is outside the table (an
out-of-bounds read, undefined in C). -/
def t_gamma_read (t_gamma : List Nat) (d : Nat) : Option Nat :=
  t_gamma[d]?

/-- Body of the `for` loop of `depth_cb` for pixel `i`, writing into the
buffer `depth_mid`. -/
def depth_cb_body (t_gamma : List Nat) (depth : Nat → Nat) (depth_mid : Ptr)
    (m : Mem) (i : Nat) : Option Mem :=
  match t_gamma_read t_gamma (depth i) with
  | none => none
  | some g =>
    let pval := g / 4
    let lb := pval &&& 0xff
    let m := store m depth_mid (4*i+3) 128
    let m := if depth i = 0 then store m depth_mid (4*i+3) 0 else m
    match pval >>> 8 with
    | 0 =>
      let m := store m depth_mid (4*i+0) 255
      let m := store m depth_mid (4*i+1) (255-lb)
      some (store m depth_mid (4*i+2) (255-lb))
    | 1 =>
      let m := store m depth_mid (4*i+0) 255
      let m := store m depth_mid (4*i+1) lb
      some (store m depth_mid (4*i+2) 0)
    | 2 =>
      let m := store m depth_mid (4*i+0) (255-lb)
      let m := store m depth_mid (4*i+1) 255
      some (store m depth_mid (4*i+2) 0)
    | 3 =>
      let m := store m depth_mid (4*i+0) 0
      let m := store m depth_mid (4*i+1) 255
      some (store m depth_mid (4*i+2) lb)
    | 4 =>
      let m := store m depth_mid (4*i+0) 0
      let m := store m depth_mid (4*i+1) (255-lb)
      some (store m depth_mid (4*i+2) 255)
    | 5 =>
      let m := store m depth_mid (4*i+0) 0
      let m := store m depth_mid (4*i+1) 0
      some (store m depth_mid (4*i+2) (255-lb))
    | _ =>
      let m := store m depth_mid (4*i+0) 0
      let m := store m depth_mid (4*i+1) 0
      let m := store m depth_mid (4*i+2) 0
      some (store m depth_mid (4*i+3) 0)

/-- The loop `for (i=0; i<n; i++)` of `depth_cb`: pixels `0 .. n-1` in
order. -/
def depth_cb_loop (t_gamma : List Nat) (depth : Nat → Nat) (depth_mid : Ptr) :
    Nat → Mem → Option Mem
  | 0, m => some m
  | n+1, m =>
    (depth_cb_loop t_gamma depth depth_mid n m).bind
      (fun m1 => depth_cb_body t_gamma depth depth_mid m1 n)

/-- Depth callback: colours the 640*480 samples of `depth` into `depth_mid`
and increments `got_depth`.  The result is `none` when a sample indexes
`t_gamma` outside the table. -/
def depth_cb (t_gamma : List Nat) (s : State) (depth : Nat → Nat) : Option State :=
  (depth_cb_loop t_gamma depth s.depth_mid (640*480) s.mem).map
    (fun m => { s with mem := m, got_depth := int_incr s.got_depth })

/-- How a call of `rgb_cb` ends: normally, or in `abort` from a failed
`assert`, with the state at that point. -/
inductive Outcome where
  | completed (s : State)
  | aborted (s : State)

/-- Video callback, notified with the buffer `rgb`; the `assert` is active
(the file does not define `NDEBUG`). -/
def rgb_cb (s : State) (rgb : Ptr) : Outcome :=
  if s.rgb_back = rgb then
    let s := { s with rgb_back := s.rgb_mid }
    let s := { s with video_buffer := s.rgb_back }
    let s := { s with rgb_mid := rgb }
    .completed { s with got_rgb := int_incr s.got_rgb }
  else
    .aborted s

/-! ## Consumer side -/

/-- Label rotation of `DrawGLScene`, done under the mutex. -/
def DrawGLScene (s : State) : State :=
  let s :=
    if s.got_depth ≠ 0 then
      { s with depth_front := s.depth_mid, depth_mid := s.depth_front, got_depth := 0 }
    else s
  if s.got_rgb ≠ 0 then
    { s with rgb_front := s.rgb_mid, rgb_mid := s.rgb_front, got_rgb := 0 }
  else s

/-- How a call of `idle` ends. -/
inductive IdleResult where
  /-- still inside the wait loop, in `pthread_cond_wait` -/
  | waiting
  /-- the wait loop is left and `idle` returns without a redraw -/
  | returned
  /-- the wait loop is left and `glutPostRedisplay` is called -/
  | redisplay
  deriving DecidableEq

/-- The function `idle`.  It reads the flags under the mutex: `s` is the
state on entry, and `later` lists the states found at each return of
`pthread_cond_wait` (the producer runs while `idle` waits). -/
def idle : State → List State → IdleResult
  | s, [] =>
    if s.got_depth = 0 ∧ s.got_rgb = 0 then .waiting
    else if s.got_depth = 0 ∨ s.got_rgb = 0 then .returned
    else .redisplay
  | s, s1 :: rest =>
    if s.got_depth = 0 ∧ s.got_rgb = 0 then idle s1 rest
    else if s.got_depth = 0 ∨ s.got_rgb = 0 then .returned
    else .redisplay

/-! ## Gradient table -/

/-- Floating-point operations used by the table initialisation of `main`,
on the values of the floats: the product of two floats and the C library's
`powf`. -/
structure FloatOps where
  mul : ℚ → ℚ → ℚ
  powf : ℚ → ℚ → ℚ

/-- Accuracy of the floating-point operations in the normal range of
binary32: a product is rounded with relative error at most `2^-24` (round
to nearest; exact evaluation and wider intermediate formats also qualify),
and `powf` with exponent 3 has relative error at most `2^-23` (one unit in
the last place). -/
def FloatOps.accurate (F : FloatOps) : Prop :=
  (∀ a b : ℚ, 1 / 2 ^ 126 ≤ a * b → a * b ≤ 2 ^ 127 →
      |F.mul a b - a * b| ≤ a * b / 2 ^ 24) ∧
  (∀ v : ℚ, 1 / 2 ^ 126 ≤ v ^ 3 → v ^ 3 ≤ 2 ^ 127 →
      |F.powf v 3 - v ^ 3| ≤ v ^ 3 / 2 ^ 23)

/-- Conversion of a float value to `uint16_t`: the fractional part is
discarded; `none` when the integral part does not fit (undefined in C). -/
def to_uint16 (x : ℚ) : Option Nat :=
  if ⌊x⌋₊ < 65536 then some ⌊x⌋₊ else none

/-- Value computed for `t_gamma[i]` by the loop of `main`:
`v = i/2048.0; v = powf(v, 3)* 6; t_gamma[i] = v*6*256`. -/
def t_gamma_entry (F : FloatOps) (i : Nat) : Option Nat :=
  let v : ℚ := (i : ℚ) / 2048
  let v := F.mul (F.powf v 3) 6
  to_uint16 (F.mul (F.mul v 6) 256)

/-- The table `t_gamma` after the initialisation loop of `main`; `junk i`
stands for what entry `i` holds when its conversion to `uint16_t` is out of
range. -/
def t_gamma_init (F : FloatOps) (junk : Nat → Nat) : List Nat :=
  (List.range 10000).map (fun i => (t_gamma_entry F i).getD (junk i % 65536))

/-! ## Runs -/

/-- Colour of one sample: the byte that the loop body of `depth_cb` leaves
in channel `c` (0 red, 1 green, 2 blue, 3 alpha) of a pixel whose sample is
`d`; `none` when `d` is outside the table. -/
def depth_colour (t_gamma : List Nat) (d c : Nat) : Option Nat :=
  (depth_cb_body t_gamma (fun _ => d) 0 (fun _ _ => 0) 0).map (fun m => m 0 c)

/-- One event of the system: a video frame completes and `rgb_cb` is
notified with the buffer held in `rgb_back`, a depth frame arrives, or the
consumer draws. -/
inductive Event where
  | video
  | depth (frame : Nat → Nat)
  | draw

/-- Effect of one event; `none` when the callback does not complete. -/
def step (t_gamma : List Nat) (s : State) : Event → Option State
  | .video =>
    match rgb_cb s s.rgb_back with
    | .completed s1 => some s1
    | .aborted _ => none
  | .depth frame => depth_cb t_gamma s frame
  | .draw => some (DrawGLScene s)

/-- Effect of a sequence of events, in order. -/
def run (t_gamma : List Nat) (s : State) : List Event → Option State
  | [] => some s
  | e :: es => (step t_gamma s e).bind (fun s1 => run t_gamma s1 es)

/-- The three colour labels hold pairwise distinct buffers. -/
def rgb_distinct (s : State) : Prop :=
  s.rgb_back ≠ s.rgb_mid ∧ s.rgb_back ≠ s.rgb_front ∧ s.rgb_mid ≠ s.rgb_front

/-- The buffers held by the three colour labels, in the order back, mid,
front. -/
def rgb_labels (s : State) : List Ptr := [s.rgb_back, s.rgb_mid, s.rgb_front]

/-- The buffers held by the two depth labels, in the order mid, front. -/
def depth_labels (s : State) : List Ptr := [s.depth_mid, s.depth_front]

/-! ## Concrete data -/

/-- A state as at startup: the five buffers of `main` at distinct addresses,
both flags zero, `rgb_back` registered as video buffer; the buffers, which
`malloc` leaves with arbitrary contents, hold zeros here. -/
def s_init : State :=
  { depth_mid := 1, depth_front := 2, rgb_back := 3, rgb_mid := 4, rgb_front := 5,
    got_rgb := 0, got_depth := 0, video_buffer := 3, mem := fun _ _ => 0 }

/-- A table of 10000 zero entries. -/
def t_zero : List Nat := List.replicate 10000 0

/-- A table whose entries step through the colour bands. -/
def t_ramp : List Nat := (List.range 10000).map (fun i => 4 * i)

/-- A depth frame whose samples all equal `d`. -/
def frame_const (d : Nat) : Nat → Nat := fun _ => d

/-- A depth frame alternating between the samples 255 and 256. -/
def frame_step : Nat → Nat := fun i => 255 + i % 2

/-- The flags after one depth frame and no video frame since startup. -/
def s_depth_ready : State := { s_init with got_depth := 1 }

/-- The memory `m` with every byte of buffer `p` set to `v`: a video frame
of constant value captured into `p`. -/
def video_fill (m : Mem) (p : Ptr) (v : Nat) : Mem :=
  fun q j => if q = p then v else m q j

/-- Exact arithmetic as floating-point operations. -/
def exact_ops : FloatOps :=
  { mul := fun a b => a * b, powf := fun v _ => v ^ 3 }

/-! ## The loop body of `depth_cb` -/

theorem store_apply (m : Mem) (p : Ptr) (off v : Nat) (q : Ptr) (j : Nat) :
    store m p off v q j = if q = p ∧ j = off then v % 256 else m q j := rfl

theorem t_gamma_read_some {t : List Nat} {d : Nat} (h : d < t.length) :
    t_gamma_read t d = some (t.get ⟨d, h⟩) := by
  simp [t_gamma_read, List.getElem?_eq_getElem h]

theorem t_gamma_read_none {t : List Nat} {d : Nat} (h : t.length ≤ d) :
    t_gamma_read t d = none := by
  simp [t_gamma_read, h]

theorem t_gamma_read_lt {t : List Nat} {d g : Nat} (h : t_gamma_read t d = some g) :
    d < t.length := by
  by_contra hn
  rw [t_gamma_read_none (Nat.le_of_not_lt hn)] at h
  cases h

theorem depth_cb_body_none {t : List Nat} {depth : Nat → Nat} {p : Ptr} {m : Mem} {i : Nat}
    (h : t.length ≤ depth i) : depth_cb_body t depth p m i = none := by
  simp [depth_cb_body, t_gamma_read_none h]

theorem depth_cb_body_some {t : List Nat} {depth : Nat → Nat} {p : Ptr} (m : Mem) {i : Nat}
    (h : depth i < t.length) : ∃ m1, depth_cb_body t depth p m i = some m1 := by
  simp only [depth_cb_body, t_gamma_read_some h]
  split <;> exact ⟨_, rfl⟩

theorem depth_cb_body_lt {t : List Nat} {depth : Nat → Nat} {p : Ptr} {m m1 : Mem} {i : Nat}
    (h : depth_cb_body t depth p m i = some m1) : depth i < t.length := by
  by_contra hn
  rw [depth_cb_body_none (Nat.le_of_not_lt hn)] at h
  cases h

/-- The body for pixel `i` writes only the four bytes of that pixel. -/
theorem depth_cb_body_frame {t : List Nat} {depth : Nat → Nat} {p : Ptr} {m m1 : Mem} {i : Nat}
    (h : depth_cb_body t depth p m i = some m1) (q : Ptr) (j : Nat)
    (hj : q ≠ p ∨ j < 4 * i ∨ 4 * i + 4 ≤ j) : m1 q j = m q j := by
  have k0 : ¬ (q = p ∧ j = 4 * i) := by
    rintro ⟨h1, h2⟩; rcases hj with h | h | h
    · exact h h1
    · omega
    · omega
  have k1 : ¬ (q = p ∧ j = 4 * i + 1) := by
    rintro ⟨h1, h2⟩; rcases hj with h | h | h
    · exact h h1
    · omega
    · omega
  have k2 : ¬ (q = p ∧ j = 4 * i + 2) := by
    rintro ⟨h1, h2⟩; rcases hj with h | h | h
    · exact h h1
    · omega
    · omega
  have k3 : ¬ (q = p ∧ j = 4 * i + 3) := by
    rintro ⟨h1, h2⟩; rcases hj with h | h | h
    · exact h h1
    · omega
    · omega
  obtain ⟨g, hg⟩ : ∃ g, t_gamma_read t (depth i) = some g :=
    ⟨_, t_gamma_read_some (depth_cb_body_lt h)⟩
  simp only [depth_cb_body, hg] at h
  split at h <;> cases h <;> split_ifs <;> simp [store_apply, k0, k1, k2, k3]

/-- The four bytes the body leaves at pixel `i` are the colour of the sample
`depth i`, whatever the buffer held before. -/
theorem depth_cb_body_pixel {t : List Nat} {depth : Nat → Nat} {p : Ptr} {m m1 : Mem} {i : Nat}
    (h : depth_cb_body t depth p m i = some m1) (c : Nat) (hc : c < 4) :
    depth_colour t (depth i) c = some (m1 p (4 * i + c)) := by
  obtain ⟨g, hg⟩ : ∃ g, t_gamma_read t (depth i) = some g :=
    ⟨_, t_gamma_read_some (depth_cb_body_lt h)⟩
  simp only [depth_cb_body, hg] at h
  simp only [depth_colour, depth_cb_body, hg]
  generalize (g / 4) >>> 8 = b at h ⊢
  rcases b with _ | _ | _ | _ | _ | _ | b <;> cases h <;> interval_cases c <;>
    split_ifs <;> simp [store_apply]

theorem and_255 (x : Nat) : x &&& 255 = x % 256 :=
  Nat.and_pow_two_sub_one_eq_mod x 8

theorem shiftRight_8 (x : Nat) : x >>> 8 = x / 256 :=
  Nat.shiftRight_eq_div_pow x 8

/-- The colour of a sample in closed form: with `pval` the table value
divided by 4, the band is `pval / 256` and the remainder `pval % 256`. -/
theorem depth_colour_eq {t : List Nat} {d g : Nat} (hg : t_gamma_read t d = some g) :
    depth_colour t d 0 = some
      (if g / 4 / 256 = 0 ∨ g / 4 / 256 = 1 then 255
       else if g / 4 / 256 = 2 then 255 - g / 4 % 256 else 0) ∧
    depth_colour t d 1 = some
      (if g / 4 / 256 = 0 ∨ g / 4 / 256 = 4 then 255 - g / 4 % 256
       else if g / 4 / 256 = 1 then g / 4 % 256
       else if g / 4 / 256 = 2 ∨ g / 4 / 256 = 3 then 255 else 0) ∧
    depth_colour t d 2 = some
      (if g / 4 / 256 = 0 ∨ g / 4 / 256 = 5 then 255 - g / 4 % 256
       else if g / 4 / 256 = 3 then g / 4 % 256
       else if g / 4 / 256 = 4 then 255 else 0) ∧
    depth_colour t d 3 = some (if d = 0 ∨ 6 ≤ g / 4 / 256 then 0 else 128) := by
  have hlb : g / 4 % 256 < 256 := Nat.mod_lt _ (by decide)
  simp only [depth_colour, depth_cb_body, hg, and_255, shiftRight_8]
  generalize g / 4 / 256 = b
  generalize g / 4 % 256 = lb at hlb
  rcases b with _ | _ | _ | _ | _ | _ | b <;>
    by_cases hd : d = 0 <;> simp [store_apply, hd] <;> omega

/-! ## The loop and the depth callback -/

theorem depth_cb_loop_some {t : List Nat} {depth : Nat → Nat} (p : Ptr) (m : Mem) :
    ∀ n : Nat, (∀ i, i < n → depth i < t.length) →
      ∃ m1, depth_cb_loop t depth p n m = some m1
  | 0, _ => ⟨m, rfl⟩
  | n+1, h => by
    obtain ⟨m0, h0⟩ := depth_cb_loop_some p m n (fun i hi => h i (Nat.lt_succ_of_lt hi))
    obtain ⟨m1, h1⟩ := depth_cb_body_some (p := p) m0 (h n (Nat.lt_succ_self n))
    exact ⟨m1, by simp [depth_cb_loop, h0, h1]⟩

theorem depth_cb_loop_none {t : List Nat} {depth : Nat → Nat} (p : Ptr) (m : Mem) {i : Nat}
    (hi : t.length ≤ depth i) : ∀ n : Nat, i < n → depth_cb_loop t depth p n m = none
  | 0, h => absurd h (Nat.not_lt_zero i)
  | n+1, h => by
    rcases Nat.lt_succ_iff_lt_or_eq.mp h with h1 | h1
    · simp [depth_cb_loop, depth_cb_loop_none p m hi n h1]
    · subst h1
      cases h0 : depth_cb_loop t depth p i m with
      | none => simp [depth_cb_loop, h0]
      | some m0 => simp [depth_cb_loop, h0, depth_cb_body_none hi]

/-- After `n` rounds of the loop, the pixels `0 .. n-1` of the buffer hold the
colours of their samples and every other byte of memory is as before. -/
theorem depth_cb_loop_spec {t : List Nat} {depth : Nat → Nat} {p : Ptr} {m : Mem} :
    ∀ (n : Nat) (m1 : Mem), depth_cb_loop t depth p n m = some m1 →
      (∀ i c, i < n → c < 4 → depth_colour t (depth i) c = some (m1 p (4 * i + c))) ∧
      (∀ (q : Ptr) (j : Nat), q ≠ p ∨ 4 * n ≤ j → m1 q j = m q j)
  | 0, m1, h => by
    simp only [depth_cb_loop, Option.some.injEq] at h
    subst h
    exact ⟨fun i c hi _ => absurd hi (Nat.not_lt_zero i), fun _ _ _ => rfl⟩
  | n+1, m1, h => by
    cases h0 : depth_cb_loop t depth p n m with
    | none => simp [depth_cb_loop, h0] at h
    | some m0 =>
      simp only [depth_cb_loop, h0, Option.some_bind] at h
      obtain ⟨ih1, ih2⟩ := depth_cb_loop_spec n m0 h0
      refine ⟨fun i c hi hc => ?_, fun q j hj => ?_⟩
      · rcases Nat.lt_succ_iff_lt_or_eq.mp hi with h1 | h1
        · rw [ih1 i c h1 hc, depth_cb_body_frame h p (4 * i + c) (by omega)]
        · subst h1
          exact depth_cb_body_pixel h c hc
      · have hb : q ≠ p ∨ j < 4 * n ∨ 4 * n + 4 ≤ j := by
          rcases hj with hq | hj
          · exact Or.inl hq
          · exact Or.inr (Or.inr (by omega))
        have hl : q ≠ p ∨ 4 * n ≤ j := by
          rcases hj with hq | hj
          · exact Or.inl hq
          · exact Or.inr (by omega)
        rw [depth_cb_body_frame h q j hb, ih2 q j hl]

theorem depth_cb_some (t : List Nat) (s : State) (depth : Nat → Nat)
    (h : ∀ i, i < 640 * 480 → depth i < t.length) :
    ∃ s1, depth_cb t s depth = some s1 := by
  obtain ⟨m1, h1⟩ := depth_cb_loop_some s.depth_mid s.mem (640 * 480) h
  exact ⟨_, by rw [depth_cb, h1]; rfl⟩

theorem depth_cb_none {t : List Nat} {depth : Nat → Nat} (s : State) {i : Nat}
    (hi : i < 640 * 480) (h : t.length ≤ depth i) : depth_cb t s depth = none := by
  rw [depth_cb, depth_cb_loop_none s.depth_mid s.mem h (640 * 480) hi]; rfl

theorem depth_cb_lt {t : List Nat} {depth : Nat → Nat} {s s1 : State}
    (h : depth_cb t s depth = some s1) : ∀ i, i < 640 * 480 → depth i < t.length := by
  intro i hi
  by_contra hn
  rw [depth_cb_none s hi (Nat.le_of_not_lt hn)] at h
  cases h

/-- What a completed `depth_cb` has done: labels and `got_rgb` untouched,
`got_depth` incremented, the buffer `depth_mid` holds the colours of the
frame, all other memory as before. -/
theorem depth_cb_spec {t : List Nat} {depth : Nat → Nat} {s s1 : State}
    (h : depth_cb t s depth = some s1) :
    s1.depth_mid = s.depth_mid ∧ s1.depth_front = s.depth_front ∧
    s1.rgb_back = s.rgb_back ∧ s1.rgb_mid = s.rgb_mid ∧ s1.rgb_front = s.rgb_front ∧
    s1.got_rgb = s.got_rgb ∧ s1.got_depth = int_incr s.got_depth ∧
    s1.video_buffer = s.video_buffer ∧
    (∀ i c, i < 640 * 480 → c < 4 →
      depth_colour t (depth i) c = some (s1.mem s.depth_mid (4 * i + c))) ∧
    (∀ (q : Ptr) (j : Nat), q ≠ s.depth_mid ∨ 4 * (640 * 480) ≤ j → s1.mem q j = s.mem q j) := by
  cases h0 : depth_cb_loop t depth s.depth_mid (640 * 480) s.mem with
  | none => rw [depth_cb, h0] at h; cases h
  | some m1 =>
    rw [depth_cb, h0] at h
    cases h
    obtain ⟨h1, h2⟩ := depth_cb_loop_spec (640 * 480) m1 h0
    exact ⟨rfl, rfl, rfl, rfl, rfl, rfl, rfl, rfl, h1, h2⟩

/-! ## Label rotation -/

theorem rgb_cb_match (s : State) :
    rgb_cb s s.rgb_back = .completed
      { s with rgb_back := s.rgb_mid, video_buffer := s.rgb_mid, rgb_mid := s.rgb_back,
               got_rgb := int_incr s.got_rgb } := by
  simp [rgb_cb]

theorem rgb_cb_mismatch (s : State) {rgb : Ptr} (h : s.rgb_back ≠ rgb) :
    rgb_cb s rgb = .aborted s := by
  simp [rgb_cb, h]

theorem perm3_swap12 (a b c : Ptr) : [b, a, c].Perm [a, b, c] :=
  List.Perm.swap a b [c]

theorem perm3_swap23 (a b c : Ptr) : [a, c, b].Perm [a, b, c] :=
  List.Perm.cons a (List.Perm.swap b c [])

theorem perm2_swap (a b : Ptr) : [b, a].Perm [a, b] :=
  List.Perm.swap a b []

/-- The labels after `DrawGLScene`, by the flags found. -/
theorem DrawGLScene_labels (s : State) :
    (DrawGLScene s).rgb_back = s.rgb_back ∧
    (DrawGLScene s).video_buffer = s.video_buffer ∧
    (DrawGLScene s).mem = s.mem ∧
    (DrawGLScene s).depth_mid = (if s.got_depth ≠ 0 then s.depth_front else s.depth_mid) ∧
    (DrawGLScene s).depth_front = (if s.got_depth ≠ 0 then s.depth_mid else s.depth_front) ∧
    (DrawGLScene s).rgb_mid = (if s.got_rgb ≠ 0 then s.rgb_front else s.rgb_mid) ∧
    (DrawGLScene s).rgb_front = (if s.got_rgb ≠ 0 then s.rgb_mid else s.rgb_front) ∧
    (DrawGLScene s).got_depth = 0 ∧ (DrawGLScene s).got_rgb = 0 := by
  by_cases hd : s.got_depth = 0 <;> by_cases hr : s.got_rgb = 0 <;>
    simp [DrawGLScene, hd, hr]

/-- One event permutes the colour labels among themselves and the depth
labels among themselves. -/
theorem step_labels {t : List Nat} {s s1 : State} {e : Event} (h : step t s e = some s1) :
    (rgb_labels s1).Perm (rgb_labels s) ∧ (depth_labels s1).Perm (depth_labels s) := by
  cases e with
  | video =>
    simp only [step, rgb_cb_match, Option.some.injEq] at h
    subst h
    exact ⟨perm3_swap12 _ _ _, List.Perm.refl _⟩
  | depth frame =>
    obtain ⟨h1, h2, h3, h4, h5, _⟩ := depth_cb_spec h
    simp only [rgb_labels, depth_labels, h1, h2, h3, h4, h5]
    exact ⟨List.Perm.refl _, List.Perm.refl _⟩
  | draw =>
    simp only [step, Option.some.injEq] at h
    subst h
    obtain ⟨h1, _, _, h4, h5, h6, h7, _⟩ := DrawGLScene_labels s
    simp only [rgb_labels, depth_labels, h1, h4, h5, h6, h7]
    constructor
    · split_ifs
      · exact perm3_swap23 _ _ _
      · exact List.Perm.refl _
    · split_ifs
      · exact perm2_swap _ _
      · exact List.Perm.refl _

theorem run_labels {t : List Nat} :
    ∀ (evs : List Event) (s s1 : State), run t s evs = some s1 →
      (rgb_labels s1).Perm (rgb_labels s) ∧ (depth_labels s1).Perm (depth_labels s)
  | [], s, s1, h => by
    simp only [run, Option.some.injEq] at h
    subst h
    exact ⟨List.Perm.refl _, List.Perm.refl _⟩
  | e :: es, s, s1, h => by
    cases h0 : step t s e with
    | none => simp [run, h0] at h
    | some s0 =>
      simp only [run, h0, Option.some_bind] at h
      obtain ⟨a1, a2⟩ := step_labels h0
      obtain ⟨b1, b2⟩ := run_labels es s0 s1 h
      exact ⟨b1.trans a1, b2.trans a2⟩

theorem rgb_distinct_iff_nodup (s : State) : rgb_distinct s ↔ (rgb_labels s).Nodup := by
  simp only [rgb_distinct, rgb_labels, List.nodup_cons, List.mem_cons, List.mem_singleton,
    List.not_mem_nil, not_or, not_false_eq_true, List.nodup_nil, and_true]
  tauto

theorem run_rgb_distinct {t : List Nat} {evs : List Event} {s s1 : State}
    (hd : rgb_distinct s) (h : run t s evs = some s1) : rgb_distinct s1 :=
  (rgb_distinct_iff_nodup s1).mpr
    ((run_labels evs s s1 h).1.nodup_iff.mpr ((rgb_distinct_iff_nodup s).mp hd))

theorem run_cons (t : List Nat) (s : State) (e : Event) (es : List Event) :
    run t s (e :: es) = (step t s e).bind (fun s1 => run t s1 es) := rfl

theorem step_depth (t : List Nat) (s : State) (f : Nat → Nat) :
    step t s (Event.depth f) = depth_cb t s f := rfl

theorem run_append {t : List Nat} :
    ∀ (as bs : List Event) (s : State),
      run t s (as ++ bs) = (run t s as).bind (fun s1 => run t s1 bs)
  | [], bs, s => by simp [run]
  | e :: as, bs, s => by
    cases h0 : step t s e with
    | none => simp [run, h0]
    | some s0 => simp [run, h0, run_append as bs s0]

theorem step_some {t : List Nat} (s : State) (e : Event)
    (h : ∀ f, e = .depth f → ∀ i, i < 640 * 480 → f i < t.length) :
    ∃ s1, step t s e = some s1 := by
  cases e with
  | video => exact ⟨_, by simp only [step, rgb_cb_match]; rfl⟩
  | depth frame => exact depth_cb_some t s frame (h frame rfl)
  | draw => exact ⟨_, rfl⟩

/-- A run completes when every depth sample lies inside the table. -/
theorem run_some {t : List Nat} :
    ∀ (evs : List Event) (s : State),
      (∀ e, e ∈ evs → ∀ f, e = .depth f → ∀ i, i < 640 * 480 → f i < t.length) →
      ∃ s1, run t s evs = some s1
  | [], s, _ => ⟨s, rfl⟩
  | e :: es, s, h => by
    obtain ⟨s0, h0⟩ := step_some (t := t) s e (h e (List.mem_cons_self e es))
    obtain ⟨s1, h1⟩ := run_some es s0 (fun e1 he1 => h e1 (List.mem_cons_of_mem e he1))
    exact ⟨s1, by simp [run, h0, h1]⟩

theorem t_zero_length : t_zero.length = 10000 :=
  List.length_replicate 10000 0

theorem frame_const_lt (d : Nat) (h : d < 10000) (f : Nat → Nat) (e : Event)
    (he : e ∈ [Event.video, Event.depth (frame_const d), Event.draw, Event.video])
    (hf : e = .depth f) (i : Nat) : f i < t_zero.length := by
  subst hf
  simp only [List.mem_cons, Event.depth.injEq, List.mem_singleton, List.not_mem_nil,
    reduceCtorEq, false_or, or_false] at he
  subst he
  rw [t_zero_length]
  exact h

/-! ## Integer flags -/

theorem int_wrap_add (a b : Int) : int_wrap (int_wrap a + b) = int_wrap (a + b) := by
  simp only [int_wrap]; omega

theorem int_wrap_id {a : Int} (h1 : -2 ^ 31 ≤ a) (h2 : a < 2 ^ 31) : int_wrap a = a := by
  simp only [int_wrap]; omega

theorem int_incr_iterate (g : Int) :
    ∀ n : Nat, int_incr^[n+1] g = int_wrap (g + ((n + 1 : Nat) : Int))
  | 0 => by simp [int_incr]
  | n+1 => by
    rw [Function.iterate_succ_apply', int_incr_iterate g n, int_incr, int_wrap_add]
    congr 1
    push_cast
    ring

/-! ## Claims on the label rotation -/

/-- C1: every finite sequence of `rgb_cb` publishes (each notified with the
buffer in `rgb_back`), `depth_cb` calls (samples inside the table) and
`DrawGLScene` rotations completes, and afterwards the labels `rgb_back`,
`rgb_mid`, `rgb_front` are a permutation of the three original colour
buffers, pairwise distinct if they were at the start, and `depth_mid`,
`depth_front` are a permutation of the two original depth buffers. -/
theorem rotation_is_bijection (t : List Nat) (s : State) (evs : List Event)
    (hr : ∀ e, e ∈ evs → ∀ f, e = Event.depth f → ∀ i, i < 640 * 480 → f i < t.length) :
    ∃ s1, run t s evs = some s1 ∧
      [s1.rgb_back, s1.rgb_mid, s1.rgb_front].Perm [s.rgb_back, s.rgb_mid, s.rgb_front] ∧
      ((s.rgb_back ≠ s.rgb_mid ∧ s.rgb_back ≠ s.rgb_front ∧ s.rgb_mid ≠ s.rgb_front) →
        (s1.rgb_back ≠ s1.rgb_mid ∧ s1.rgb_back ≠ s1.rgb_front ∧
          s1.rgb_mid ≠ s1.rgb_front)) ∧
      [s1.depth_mid, s1.depth_front].Perm [s.depth_mid, s.depth_front] := by
  obtain ⟨s1, h⟩ := run_some evs s hr
  exact ⟨s1, h, (run_labels evs s s1 h).1, fun hd => run_rgb_distinct hd h,
    (run_labels evs s s1 h).2⟩

theorem rotation_is_bijection_witness :
    ∃ s1, run t_zero s_init [.video, .depth (frame_const 1), .draw, .video] = some s1 ∧
      [s1.rgb_back, s1.rgb_mid, s1.rgb_front].Perm [3, 4, 5] ∧
      (((3 : Ptr) ≠ 4 ∧ (3 : Ptr) ≠ 5 ∧ (4 : Ptr) ≠ 5) →
        (s1.rgb_back ≠ s1.rgb_mid ∧ s1.rgb_back ≠ s1.rgb_front ∧
          s1.rgb_mid ≠ s1.rgb_front)) ∧
      [s1.depth_mid, s1.depth_front].Perm [1, 2] :=
  rotation_is_bijection t_zero s_init [.video, .depth (frame_const 1), .draw, .video]
    (fun e he f hf i _ => frame_const_lt 1 (by decide) f e he hf i)

/-- C2: in every state reached from pairwise distinct colour buffers by
`rgb_cb`, `depth_cb` and `DrawGLScene` steps, `rgb_cb` called with the buffer
in `rgb_back` completes, and the buffer it hands to
`freenect_set_video_buffer` (the new `rgb_back`, the old `rgb_mid`) is not
the buffer labelled `rgb_front`, before or after the call. -/
theorem recycled_buffer_not_displayed (t : List Nat) (s : State) (evs : List Event)
    (hd : s.rgb_back ≠ s.rgb_mid ∧ s.rgb_back ≠ s.rgb_front ∧ s.rgb_mid ≠ s.rgb_front)
    (hr : ∀ e, e ∈ evs → ∀ f, e = Event.depth f → ∀ i, i < 640 * 480 → f i < t.length) :
    ∃ s1, run t s evs = some s1 ∧
      ∃ s2, rgb_cb s1 s1.rgb_back = .completed s2 ∧
        s2.video_buffer = s1.rgb_mid ∧ s2.rgb_back = s1.rgb_mid ∧
        s2.video_buffer ≠ s1.rgb_front ∧ s2.video_buffer ≠ s2.rgb_front := by
  obtain ⟨s1, h⟩ := run_some evs s hr
  have hd1 : rgb_distinct s1 := run_rgb_distinct hd h
  exact ⟨s1, h, _, rgb_cb_match s1, rfl, rfl, hd1.2.2, hd1.2.2⟩

theorem recycled_buffer_not_displayed_witness :
    ((3 : Ptr) ≠ 4 ∧ (3 : Ptr) ≠ 5 ∧ (4 : Ptr) ≠ 5) ∧
    ∃ s1, run t_zero s_init [.video, .depth (frame_const 2), .draw, .video] = some s1 ∧
      ∃ s2, rgb_cb s1 s1.rgb_back = .completed s2 ∧
        s2.video_buffer = s1.rgb_mid ∧ s2.rgb_back = s1.rgb_mid ∧
        s2.video_buffer ≠ s1.rgb_front ∧ s2.video_buffer ≠ s2.rgb_front :=
  ⟨by decide,
    recycled_buffer_not_displayed t_zero s_init
      [.video, .depth (frame_const 2), .draw, .video] (by decide)
      (fun e he f hf i _ => frame_const_lt 2 (by decide) f e he hf i)⟩

/-- C8: `rgb_cb` aborts exactly when the notified buffer is not the one in
`rgb_back`, and then with the state untouched; when the buffer matches it
completes with `rgb_back` the old `rgb_mid`, `rgb_mid` the notified buffer,
`rgb_front` unchanged and `got_rgb` incremented (by one below `INT_MAX`). -/
theorem rgb_cb_protocol (s : State) (rgb : Ptr) :
    ((∃ s1, rgb_cb s rgb = .aborted s1) ↔ rgb ≠ s.rgb_back) ∧
    (∀ s1, rgb_cb s rgb = .aborted s1 → s1 = s) ∧
    (rgb = s.rgb_back →
      ∃ s1, rgb_cb s rgb = .completed s1 ∧ s1.rgb_back = s.rgb_mid ∧ s1.rgb_mid = rgb ∧
        s1.rgb_front = s.rgb_front ∧ s1.got_rgb = int_incr s.got_rgb ∧
        (-2 ^ 31 ≤ s.got_rgb → s.got_rgb < 2 ^ 31 - 1 → s1.got_rgb = s.got_rgb + 1)) := by
  refine ⟨?_, ?_, ?_⟩
  · by_cases hb : s.rgb_back = rgb
    · subst hb
      simp [rgb_cb_match]
    · simp [rgb_cb_mismatch s hb, Ne.symm hb]
  · intro s1 h1
    by_cases hb : s.rgb_back = rgb
    · subst hb
      simp [rgb_cb_match] at h1
    · rw [rgb_cb_mismatch s hb] at h1
      cases h1
      rfl
  · intro hb
    subst hb
    refine ⟨_, rgb_cb_match s, rfl, rfl, rfl, rfl, fun h1 h2 => ?_⟩
    exact int_wrap_id (by omega) (by omega)

/-- C9: `DrawGLScene` never changes `rgb_back`; for a stream whose flag is
non-zero it exchanges the mid and front labels and clears the flag; for a
stream whose flag is zero it leaves mid, front and flag as they were. -/
theorem DrawGLScene_ready_streams_only (s : State) :
    (DrawGLScene s).rgb_back = s.rgb_back ∧
    (s.got_depth ≠ 0 →
      (DrawGLScene s).depth_mid = s.depth_front ∧ (DrawGLScene s).depth_front = s.depth_mid ∧
      (DrawGLScene s).got_depth = 0) ∧
    (s.got_depth = 0 →
      (DrawGLScene s).depth_mid = s.depth_mid ∧ (DrawGLScene s).depth_front = s.depth_front ∧
      (DrawGLScene s).got_depth = s.got_depth) ∧
    (s.got_rgb ≠ 0 →
      (DrawGLScene s).rgb_mid = s.rgb_front ∧ (DrawGLScene s).rgb_front = s.rgb_mid ∧
      (DrawGLScene s).got_rgb = 0) ∧
    (s.got_rgb = 0 →
      (DrawGLScene s).rgb_mid = s.rgb_mid ∧ (DrawGLScene s).rgb_front = s.rgb_front ∧
      (DrawGLScene s).got_rgb = s.got_rgb) := by
  obtain ⟨h1, _, _, h4, h5, h6, h7, h8, h9⟩ := DrawGLScene_labels s
  refine ⟨h1, fun h => ?_, fun h => ?_, fun h => ?_, fun h => ?_⟩
  · exact ⟨by rw [h4, if_pos h], by rw [h5, if_pos h], h8⟩
  · exact ⟨by rw [h4, if_neg (not_not.mpr h)], by rw [h5, if_neg (not_not.mpr h)],
      by rw [h8, h]⟩
  · exact ⟨by rw [h6, if_pos h], by rw [h7, if_pos h], h9⟩
  · exact ⟨by rw [h6, if_neg (not_not.mpr h)], by rw [h7, if_neg (not_not.mpr h)],
      by rw [h9, h]⟩

/-! ## Claims on the consumer loop -/

/-- C5, as the code has it: `idle` stays in its wait loop while both flags
are zero; once the loop is left, on a state with `got_depth` or `got_rgb`
non-zero, it requests a redraw exactly when both flags are non-zero, and
returns without a redraw when one of them is zero. -/
theorem idle_redraws_iff_both_ready (s : State) (later : List State) :
    ((s.got_depth ≠ 0 ∨ s.got_rgb ≠ 0) →
      (idle s later = .redisplay ↔ (s.got_depth ≠ 0 ∧ s.got_rgb ≠ 0)) ∧
      (idle s later = .returned ↔
        ((s.got_depth ≠ 0 ∧ s.got_rgb = 0) ∨ (s.got_depth = 0 ∧ s.got_rgb ≠ 0)))) ∧
    ((s.got_depth = 0 ∧ s.got_rgb = 0) →
      idle s [] = .waiting ∧ ∀ s1 rest, idle s (s1 :: rest) = idle s1 rest) := by
  refine ⟨fun h => ?_, fun h => ⟨by simp [idle, h], fun s1 rest => by simp [idle, h]⟩⟩
  cases later <;> by_cases hd : s.got_depth = 0 <;> by_cases hg : s.got_rgb = 0 <;>
    simp_all [idle]

/-- C5 fails as stated: after one depth frame and no video frame `got_depth`
is non-zero, the wait loop is left, and `idle` returns without requesting a
redraw, whether it was entered before or after the frame. -/
theorem idle_one_stream_counterexample :
    (s_depth_ready.got_depth ≠ 0 ∨ s_depth_ready.got_rgb ≠ 0) ∧
    idle s_depth_ready [] = .returned ∧ idle s_depth_ready [] ≠ .redisplay ∧
    idle s_init [s_depth_ready] = .returned ∧
    ∃ s1, run t_zero s_init [.depth (frame_const 1)] = some s1 ∧
      s1.got_depth = s_depth_ready.got_depth ∧ s1.got_rgb = s_depth_ready.got_rgb := by
  refine ⟨Or.inl (by decide), by decide, by decide, by decide, ?_⟩
  obtain ⟨s1, h1⟩ := depth_cb_some t_zero s_init (frame_const 1)
    (fun i _ => by rw [t_zero_length]; exact (by decide : 1 < 10000))
  obtain ⟨_, _, _, _, _, h6, h7, _⟩ := depth_cb_spec h1
  exact ⟨s1, by simp [run, step, h1], by rw [h7]; decide, by rw [h6]; decide⟩

/-! ## Claims on the depth colouring -/

theorem t_ramp_length : t_ramp.length = 10000 := by
  rw [t_ramp, List.length_map, List.length_range]

theorem t_ramp_read {d : Nat} (h : d < 10000) : t_gamma_read t_ramp d = some (4 * d) := by
  rw [t_gamma_read, t_ramp, List.getElem?_map, List.getElem?_range h]
  rfl

/-- C4: whatever the table holds, a completed `depth_cb` has written alpha 0
for every pixel whose raw sample is 0 (and it completes whenever the samples
lie inside the table). -/
theorem depth_zero_transparent (t : List Nat) (s : State) (depth : Nat → Nat) (i : Nat)
    (hr : ∀ j, j < 640 * 480 → depth j < t.length) (hi : i < 640 * 480)
    (h0 : depth i = 0) :
    ∃ s1, depth_cb t s depth = some s1 ∧ s1.mem s1.depth_mid (4 * i + 3) = 0 := by
  obtain ⟨s1, h1⟩ := depth_cb_some t s depth hr
  obtain ⟨hm, _, _, _, _, _, _, _, hpix, _⟩ := depth_cb_spec h1
  refine ⟨s1, h1, ?_⟩
  have hp := hpix i 3 hi (by decide)
  obtain ⟨_, _, _, h3⟩ := depth_colour_eq (t_gamma_read_some (hr i hi))
  rw [h3, if_pos (Or.inl h0), Option.some.injEq] at hp
  rw [hm, ← hp]

theorem depth_zero_transparent_witness :
    (∀ j, j < 640 * 480 → frame_const 0 j < t_ramp.length) ∧ 7 < 640 * 480 ∧
    frame_const 0 7 = 0 ∧
    ∃ s1, depth_cb t_ramp s_init (frame_const 0) = some s1 ∧
      s1.mem s1.depth_mid (4 * 7 + 3) = 0 :=
  have hr : ∀ j, j < 640 * 480 → frame_const 0 j < t_ramp.length :=
    fun _ _ => by rw [t_ramp_length]; exact (by decide : 0 < 10000)
  ⟨hr, by decide, rfl,
    depth_zero_transparent t_ramp s_init (frame_const 0) 7 hr (by decide) rfl⟩

/-- C6, as the code has it: `depth_cb` reads `t_gamma` at the raw sample
itself, without clamping; the read is inside the table exactly for samples
below the table size, and `depth_cb` completes exactly when every sample of
the frame is below the table size. -/
theorem gamma_lookup_unclamped (t : List Nat) (s : State) (depth : Nat → Nat) :
    (∀ d, t_gamma_read t d = t[d]?) ∧
    (∀ d, (∃ g, t_gamma_read t d = some g) ↔ d < t.length) ∧
    ((∃ s1, depth_cb t s depth = some s1) ↔ ∀ i, i < 640 * 480 → depth i < t.length) := by
  refine ⟨fun _ => rfl, fun d => ⟨fun ⟨g, hg⟩ => t_gamma_read_lt hg,
    fun h => ⟨_, t_gamma_read_some h⟩⟩, ⟨fun ⟨s1, h1⟩ => depth_cb_lt h1,
    fun h => depth_cb_some t s depth h⟩⟩

/-- C6 fails as stated: the 16-bit sample 10000 is read at index 10000 of a
table of 10000 entries, outside the table, and `depth_cb` has no defined
result on a frame holding it. -/
theorem gamma_lookup_counterexample :
    t_zero.length = 10000 ∧ 10000 < 2 ^ 16 ∧ t_gamma_read t_zero 10000 = none ∧
    depth_cb t_zero s_init (frame_const 10000) = none :=
  ⟨t_zero_length, by decide, t_gamma_read_none (by rw [t_zero_length]),
    depth_cb_none (i := 0) s_init (by decide) (by rw [t_zero_length]; exact Nat.le_refl _)⟩

/-- C7: in a frame coloured by `depth_cb` (samples inside the table), a pixel
at the last value of band `k` (`pval = 256k + 255`) and a pixel at the first
value of band `k+1` (`pval = 256(k+1)`), `k` in 0..4, differ by at most 1 in
each of R, G, B and have equal alpha when both samples are non-zero; two
pixels whose `pval` are consecutive inside one band also differ by at most 1
in R, G, B. -/
theorem band_boundary_continuity (t : List Nat) (s : State) (depth : Nat → Nat)
    (i j k gi gj : Nat) (hr : ∀ x, x < 640 * 480 → depth x < t.length)
    (hi : i < 640 * 480) (hj : j < 640 * 480) (hk : k ≤ 4)
    (hgi : t_gamma_read t (depth i) = some gi) (hgj : t_gamma_read t (depth j) = some gj)
    (hpi : gi / 4 = 256 * k + 255) (hpj : gj / 4 = 256 * (k + 1)) :
    ∃ s1, depth_cb t s depth = some s1 ∧
      (∀ c, c < 3 →
        s1.mem s1.depth_mid (4 * i + c) ≤ s1.mem s1.depth_mid (4 * j + c) + 1 ∧
        s1.mem s1.depth_mid (4 * j + c) ≤ s1.mem s1.depth_mid (4 * i + c) + 1) ∧
      (depth i ≠ 0 → depth j ≠ 0 →
        s1.mem s1.depth_mid (4 * i + 3) = s1.mem s1.depth_mid (4 * j + 3)) ∧
      (∀ a b ga gb, a < 640 * 480 → b < 640 * 480 →
        t_gamma_read t (depth a) = some ga → t_gamma_read t (depth b) = some gb →
        gb / 4 = ga / 4 + 1 → (gb / 4) >>> 8 = (ga / 4) >>> 8 →
        ∀ c, c < 3 →
          s1.mem s1.depth_mid (4 * a + c) ≤ s1.mem s1.depth_mid (4 * b + c) + 1 ∧
          s1.mem s1.depth_mid (4 * b + c) ≤ s1.mem s1.depth_mid (4 * a + c) + 1) := by
  obtain ⟨s1, h⟩ := depth_cb_some t s depth hr
  obtain ⟨hm, _, _, _, _, _, _, _, hpix, _⟩ := depth_cb_spec h
  refine ⟨s1, h, ?_⟩
  rw [hm]
  refine ⟨fun c hc => ?_, fun hdi hdj => ?_, fun a b ga gb ha hb hga hgb hstep hband c hc => ?_⟩
  · obtain ⟨i0, i1, i2, _⟩ := depth_colour_eq hgi
    obtain ⟨j0, j1, j2, _⟩ := depth_colour_eq hgj
    have e0 := (hpix i 0 hi (by decide)).symm.trans i0
    have e1 := (hpix i 1 hi (by decide)).symm.trans i1
    have e2 := (hpix i 2 hi (by decide)).symm.trans i2
    have f0 := (hpix j 0 hj (by decide)).symm.trans j0
    have f1 := (hpix j 1 hj (by decide)).symm.trans j1
    have f2 := (hpix j 2 hj (by decide)).symm.trans j2
    simp only [Option.some.injEq, hpi, hpj] at e0 e1 e2 f0 f1 f2
    interval_cases k <;> interval_cases c <;>
      simp only [e0, e1, e2, f0, f1, f2] <;> decide
  · obtain ⟨_, _, _, i3⟩ := depth_colour_eq hgi
    obtain ⟨_, _, _, j3⟩ := depth_colour_eq hgj
    have e3 := (hpix i 3 hi (by decide)).symm.trans i3
    have f3 := (hpix j 3 hj (by decide)).symm.trans j3
    simp only [Option.some.injEq, hpi, hpj] at e3 f3
    rw [e3, f3]
    have hbi : ¬ (6 ≤ (256 * k + 255) / 256) := by omega
    have hbj : ¬ (6 ≤ 256 * (k + 1) / 256) := by omega
    rw [if_neg (not_or.mpr ⟨hdi, hbi⟩), if_neg (not_or.mpr ⟨hdj, hbj⟩)]
  · obtain ⟨a0, a1, a2, _⟩ := depth_colour_eq hga
    obtain ⟨b0, b1, b2, _⟩ := depth_colour_eq hgb
    have e0 := (hpix a 0 ha (by decide)).symm.trans a0
    have e1 := (hpix a 1 ha (by decide)).symm.trans a1
    have e2 := (hpix a 2 ha (by decide)).symm.trans a2
    have f0 := (hpix b 0 hb (by decide)).symm.trans b0
    have f1 := (hpix b 1 hb (by decide)).symm.trans b1
    have f2 := (hpix b 2 hb (by decide)).symm.trans b2
    simp only [Option.some.injEq, Nat.add_zero] at e0 e1 e2 f0 f1 f2
    rw [shiftRight_8, shiftRight_8] at hband
    have hmod : gb / 4 % 256 = ga / 4 % 256 + 1 := by omega
    have hlt : ga / 4 % 256 < 255 := by omega
    interval_cases c <;> simp only [Nat.add_zero, e0, e1, e2, f0, f1, f2, hband, hmod] <;>
      split_ifs <;> omega

theorem band_boundary_continuity_witness :
    ∃ s1, depth_cb t_ramp s_init frame_step = some s1 ∧
      (∀ c, c < 3 →
        s1.mem s1.depth_mid (4 * 0 + c) ≤ s1.mem s1.depth_mid (4 * 1 + c) + 1 ∧
        s1.mem s1.depth_mid (4 * 1 + c) ≤ s1.mem s1.depth_mid (4 * 0 + c) + 1) ∧
      (frame_step 0 ≠ 0 → frame_step 1 ≠ 0 →
        s1.mem s1.depth_mid (4 * 0 + 3) = s1.mem s1.depth_mid (4 * 1 + 3)) ∧
      (∀ a b ga gb, a < 640 * 480 → b < 640 * 480 →
        t_gamma_read t_ramp (frame_step a) = some ga →
        t_gamma_read t_ramp (frame_step b) = some gb →
        gb / 4 = ga / 4 + 1 → (gb / 4) >>> 8 = (ga / 4) >>> 8 →
        ∀ c, c < 3 →
          s1.mem s1.depth_mid (4 * a + c) ≤ s1.mem s1.depth_mid (4 * b + c) + 1 ∧
          s1.mem s1.depth_mid (4 * b + c) ≤ s1.mem s1.depth_mid (4 * a + c) + 1) :=
  band_boundary_continuity t_ramp s_init frame_step 0 1 0 1020 1024
    (fun i _ => by rw [t_ramp_length]; simp only [frame_step]; omega)
    (by decide) (by decide) (by decide) (t_ramp_read (by decide)) (t_ramp_read (by decide))
    (by decide) (by decide)

/-! ## Claims on skipped frames -/

/-- A burst of depth frames with no other event in between: the labels stay,
`got_depth` is incremented once per frame, and only the buffer `depth_mid`
is written. -/
theorem run_depths {t : List Nat} :
    ∀ (frames : List (Nat → Nat)) (s : State),
      (∀ f, f ∈ frames → ∀ i, i < 640 * 480 → f i < t.length) →
      ∃ s1, run t s (frames.map Event.depth) = some s1 ∧
        s1.depth_mid = s.depth_mid ∧ s1.depth_front = s.depth_front ∧
        s1.got_depth = int_incr^[frames.length] s.got_depth ∧
        (∀ (q : Ptr) (j : Nat), q ≠ s.depth_mid → s1.mem q j = s.mem q j)
  | [], s, _ => ⟨s, rfl, rfl, rfl, rfl, fun _ _ _ => rfl⟩
  | f :: fs, s, h => by
    obtain ⟨s0, h0⟩ := depth_cb_some t s f (h f (List.mem_cons_self f fs))
    obtain ⟨a1, a2, _, _, _, _, a7, _, _, a10⟩ := depth_cb_spec h0
    obtain ⟨s1, h1, b1, b2, b3, b4⟩ :=
      run_depths fs s0 (fun g hg => h g (List.mem_cons_of_mem f hg))
    refine ⟨s1, by simp [run, step, h0, h1], b1.trans a1, b2.trans a2, ?_, fun q j hq => ?_⟩
    · rw [b3, a7, List.length_cons, Function.iterate_succ_apply]
    · rw [b4 q j (by rw [a1]; exact hq), a10 q j (Or.inl hq)]

/-- A burst of depth frames followed by one `DrawGLScene` that finds
`got_depth` non-zero: the buffer labelled `depth_front` then holds the
colours of the last frame. -/
theorem run_burst_then_draw (t : List Nat) (s : State)
    (frames : List (Nat → Nat)) (last : Nat → Nat)
    (hr : ∀ f, f ∈ frames ++ [last] → ∀ i, i < 640 * 480 → f i < t.length)
    (hflag : int_wrap (s.got_depth + ((frames.length + 1 : Nat) : Int)) ≠ 0) :
    ∃ s1, run t s ((frames ++ [last]).map Event.depth ++ [Event.draw]) = some s1 ∧
      (∀ i c, i < 640 * 480 → c < 4 →
        depth_colour t (last i) c = some (s1.mem s1.depth_front (4 * i + c))) ∧
      (∀ s2 s3, depth_cb t s2 last = some s3 → ∀ j, j < 4 * (640 * 480) →
        s1.mem s1.depth_front j = s3.mem s3.depth_mid j) := by
  obtain ⟨s0, h0, a1, _, a3, _⟩ := run_depths (t := t) frames s
    (fun f hf => hr f (List.mem_append_left _ hf))
  obtain ⟨s1, h1⟩ := depth_cb_some t s0 last
    (hr last (List.mem_append_right _ (List.mem_singleton_self last)))
  obtain ⟨b1, _, _, _, _, _, b7, _, b9, _⟩ := depth_cb_spec h1
  have hg : s1.got_depth ≠ 0 := by
    rw [b7, a3, ← Function.iterate_succ_apply' int_incr, int_incr_iterate]
    exact hflag
  obtain ⟨_, _, c3, _, c5, _⟩ := DrawGLScene_labels s1
  rw [if_pos hg] at c5
  have hpix : ∀ i c, i < 640 * 480 → c < 4 →
      depth_colour t (last i) c =
        some ((DrawGLScene s1).mem (DrawGLScene s1).depth_front (4 * i + c)) := by
    intro i c hi hc
    rw [c3, c5, b1]
    exact b9 i c hi hc
  refine ⟨DrawGLScene s1, ?_, hpix, fun s2 s3 h3 j hj => ?_⟩
  · have e1 : run t s0 [Event.depth last, Event.draw] = some (DrawGLScene s1) := by
      rw [run_cons, step_depth, h1]
      rfl
    rw [List.map_append, List.append_assoc, run_append, h0, Option.some_bind,
      List.map_cons, List.map_nil, List.singleton_append]
    exact e1
  · obtain ⟨d1, _, _, _, _, _, _, _, d9, _⟩ := depth_cb_spec h3
    have e1 := hpix (j / 4) (j % 4) (by omega) (Nat.mod_lt _ (by decide))
    have e2 := d9 (j / 4) (j % 4) (by omega) (Nat.mod_lt _ (by decide))
    rw [e1, Option.some.injEq, Nat.div_add_mod] at e2
    rw [d1, e2]

/-- C3: for every `N >= 1` and every burst of `N` depth frames with all
samples inside the table, published with no consumer rotation in between
from a state in which the counter `got_depth` is non-negative and its `N`
increments are defined (no overflow of the `int`), followed by one
`DrawGLScene`: the run completes, and every byte of the buffer labelled
`depth_front`, all 640*480 pixels and 4 channels, is the colour of the
`N`-th frame only; it is what one `depth_cb` of that frame alone leaves in
`depth_mid` from any state, whatever the frames `1 .. N-1` and the earlier
contents of the buffer were. -/
theorem skipped_frames_latest_only (t : List Nat) (s : State)
    (frames : List (Nat → Nat)) (last : Nat → Nat)
    (hr : ∀ f, f ∈ frames ++ [last] → ∀ i, i < 640 * 480 → f i < t.length)
    (hg : 0 ≤ s.got_depth)
    (hN : s.got_depth + ((frames.length + 1 : Nat) : Int) ≤ 2 ^ 31 - 1) :
    ∃ s1, run t s ((frames ++ [last]).map Event.depth ++ [Event.draw]) = some s1 ∧
      (∀ i c, i < 640 * 480 → c < 4 →
        depth_colour t (last i) c = some (s1.mem s1.depth_front (4 * i + c))) ∧
      (∀ s2 s3, depth_cb t s2 last = some s3 → ∀ j, j < 4 * (640 * 480) →
        s1.mem s1.depth_front j = s3.mem s3.depth_mid j) := by
  have hpos : (0 : Int) < ((frames.length + 1 : Nat) : Int) := by
    exact_mod_cast Nat.succ_pos frames.length
  have hw : int_wrap (s.got_depth + ((frames.length + 1 : Nat) : Int)) =
      s.got_depth + ((frames.length + 1 : Nat) : Int) :=
    int_wrap_id (by omega) (by omega)
  exact run_burst_then_draw t s frames last hr (by rw [hw]; omega)

theorem skipped_frames_latest_only_witness :
    ∃ s1, run t_ramp s_init
        (([frame_const 7, frame_step] ++ [frame_const 300]).map Event.depth ++ [Event.draw])
          = some s1 ∧
      (∀ i c, i < 640 * 480 → c < 4 →
        depth_colour t_ramp (frame_const 300 i) c = some (s1.mem s1.depth_front (4 * i + c))) ∧
      (∀ s2 s3, depth_cb t_ramp s2 (frame_const 300) = some s3 → ∀ j, j < 4 * (640 * 480) →
        s1.mem s1.depth_front j = s3.mem s3.depth_mid j) :=
  skipped_frames_latest_only t_ramp s_init [frame_const 7, frame_step] (frame_const 300)
    (by
      intro f hf i _
      rw [t_ramp_length]
      simp only [List.cons_append, List.nil_append, List.mem_cons, List.mem_singleton,
        List.not_mem_nil, or_false] at hf
      rcases hf with hf | hf | hf <;> subst hf <;> simp only [frame_const, frame_step] <;> omega)
    (by decide) (by decide)

/-! ## The gradient table and the end-to-end scenario -/

theorem exact_ops_accurate : exact_ops.accurate := by
  constructor
  · intro a b h1 _
    have h0 : (0 : ℚ) ≤ a * b := le_trans (by positivity) h1
    show |a * b - a * b| ≤ a * b / 2 ^ 24
    rw [sub_self, abs_zero]
    exact div_nonneg h0 (by positivity)
  · intro v h1 _
    have h0 : (0 : ℚ) ≤ v ^ 3 := le_trans (by positivity) h1
    show |v ^ 3 - v ^ 3| ≤ v ^ 3 / 2 ^ 23
    rw [sub_self, abs_zero]
    exact div_nonneg h0 (by positivity)

theorem mul_bounds {F : FloatOps} (hF : F.accurate) (a b lo hi : ℚ)
    (hlo : 1 / 2 ^ 126 ≤ lo) (hhi : hi ≤ 2 ^ 127) (h1 : lo ≤ a * b) (h2 : a * b ≤ hi) :
    lo * (1 - 1 / 2 ^ 24) ≤ F.mul a b ∧ F.mul a b ≤ hi * (1 + 1 / 2 ^ 24) := by
  have h := abs_le.mp (hF.1 a b (le_trans hlo h1) (le_trans h2 hhi))
  constructor
  · have : lo * (1 - 1 / 2 ^ 24) ≤ a * b * (1 - 1 / 2 ^ 24) :=
      mul_le_mul_of_nonneg_right h1 (by norm_num)
    linarith [h.1]
  · have : a * b * (1 + 1 / 2 ^ 24) ≤ hi * (1 + 1 / 2 ^ 24) :=
      mul_le_mul_of_nonneg_right h2 (by norm_num)
    linarith [h.2]

theorem t_gamma_entry_500 {F : FloatOps} (hF : F.accurate) : t_gamma_entry F 500 = some 134 := by
  have hp := abs_le.mp (hF.2 (500 / 2048) (by norm_num) (by norm_num))
  have hp1 : (14551 : ℚ) / 1000000 ≤ F.powf (500 / 2048) 3 := by
    have : (14551 : ℚ) / 1000000 ≤ (500 / 2048) ^ 3 - (500 / 2048) ^ 3 / 2 ^ 23 := by norm_num
    linarith [hp.1]
  have hp2 : F.powf (500 / 2048) 3 ≤ (14552 : ℚ) / 1000000 := by
    have : (500 / 2048 : ℚ) ^ 3 + (500 / 2048) ^ 3 / 2 ^ 23 ≤ (14552 : ℚ) / 1000000 := by norm_num
    linarith [hp.2]
  obtain ⟨ha1, ha2⟩ := mul_bounds hF (F.powf (500 / 2048) 3) 6
    (87306 / 1000000) (87312 / 1000000) (by norm_num) (by norm_num)
    (by linarith) (by linarith)
  obtain ⟨hb1, hb2⟩ := mul_bounds hF (F.mul (F.powf (500 / 2048) 3) 6) 6
    (52383 / 100000) (52388 / 100000) (by norm_num) (by norm_num)
    (by norm_num at ha1 ⊢; linarith) (by norm_num at ha2 ⊢; linarith)
  obtain ⟨hx1, hx2⟩ := mul_bounds hF (F.mul (F.mul (F.powf (500 / 2048) 3) 6) 6) 256
    (13409 / 100) (13412 / 100) (by norm_num) (by norm_num)
    (by norm_num at hb1 ⊢; linarith) (by norm_num at hb2 ⊢; linarith)
  have hfl : ⌊F.mul (F.mul (F.mul (F.powf (500 / 2048) 3) 6) 6) 256⌋₊ = 134 := by
    rw [Nat.floor_eq_iff (by norm_num at hx1 ⊢; linarith)]
    constructor
    · norm_num at hx1 ⊢; linarith
    · norm_num at hx2 ⊢; linarith
  simp only [t_gamma_entry, to_uint16, Nat.cast_ofNat, hfl]
  rfl

theorem t_gamma_init_length (F : FloatOps) (junk : Nat → Nat) :
    (t_gamma_init F junk).length = 10000 := by
  rw [t_gamma_init, List.length_map, List.length_range]

theorem t_gamma_init_read_500 {F : FloatOps} (hF : F.accurate) (junk : Nat → Nat) :
    t_gamma_read (t_gamma_init F junk) 500 = some 134 := by
  rw [t_gamma_read, t_gamma_init, List.getElem?_map,
    List.getElem?_range (by decide : 500 < 10000), Option.map_some', t_gamma_entry_500 hF]
  rfl

/-- C10: with the table built by `main` (floating-point operations accurate
to the last place), from a state with both flags zero and `depth_mid`,
`rgb_back` distinct buffers: `depth_cb` on a frame of samples 500 completes;
after the buffer `rgb_back` has been filled with 200 and `rgb_cb` is called
with it, both flags are non-zero and `idle` requests a redraw; after
`DrawGLScene` every pixel of `depth_front` is the colour of sample 500,
which is (255, 222, 222) with alpha 128, and every byte of `rgb_front` is
200. -/
theorem end_to_end_scenario (F : FloatOps) (junk : Nat → Nat) (s : State)
    (hF : F.accurate) (hbuf : s.depth_mid ≠ s.rgb_back)
    (hd0 : s.got_depth = 0) (hr0 : s.got_rgb = 0) :
    ∃ s1, depth_cb (t_gamma_init F junk) s (frame_const 500) = some s1 ∧
      ∀ m : Mem, (∀ j, j < 640 * 480 * 3 → m s1.rgb_back j = 200) →
        (∀ (q : Ptr) (j : Nat), q ≠ s1.rgb_back → m q j = s1.mem q j) →
        ∃ s2, rgb_cb { s1 with mem := m } s1.rgb_back = .completed s2 ∧
          s2.got_depth ≠ 0 ∧ s2.got_rgb ≠ 0 ∧ (∀ later, idle s2 later = .redisplay) ∧
          (∀ i c, i < 640 * 480 → c < 4 →
            depth_colour (t_gamma_init F junk) 500 c =
              some ((DrawGLScene s2).mem (DrawGLScene s2).depth_front (4 * i + c))) ∧
          (∀ i, i < 640 * 480 →
            (DrawGLScene s2).mem (DrawGLScene s2).depth_front (4 * i + 0) = 255 ∧
            (DrawGLScene s2).mem (DrawGLScene s2).depth_front (4 * i + 1) = 222 ∧
            (DrawGLScene s2).mem (DrawGLScene s2).depth_front (4 * i + 2) = 222 ∧
            (DrawGLScene s2).mem (DrawGLScene s2).depth_front (4 * i + 3) = 128) ∧
          (∀ j, j < 640 * 480 * 3 →
            (DrawGLScene s2).mem (DrawGLScene s2).rgb_front j = 200) := by
  obtain ⟨s1, h1⟩ := depth_cb_some (t_gamma_init F junk) s (frame_const 500)
    (fun i _ => by rw [t_gamma_init_length]; exact (by decide : 500 < 10000))
  obtain ⟨a1, _, a3, _, _, a6, a7, _, a9, _⟩ := depth_cb_spec h1
  refine ⟨s1, h1, fun m hm1 hm2 => ?_⟩
  have hgd : int_incr s1.got_rgb ≠ 0 := by rw [a6, hr0]; decide
  have hdd : s1.got_depth ≠ 0 := by rw [a7, hd0]; decide
  have hm : rgb_cb { s1 with mem := m } s1.rgb_back = .completed
      { s1 with mem := m, rgb_back := s1.rgb_mid, video_buffer := s1.rgb_mid,
                rgb_mid := s1.rgb_back, got_rgb := int_incr s1.got_rgb } :=
    rgb_cb_match { s1 with mem := m }
  obtain ⟨_, _, c3, _, c5, _, c7, _⟩ := DrawGLScene_labels
    { s1 with mem := m, rgb_back := s1.rgb_mid, video_buffer := s1.rgb_mid,
              rgb_mid := s1.rgb_back, got_rgb := int_incr s1.got_rgb }
  rw [if_pos hdd] at c5
  rw [if_pos hgd] at c7
  have hpix : ∀ i c, i < 640 * 480 → c < 4 →
      depth_colour (t_gamma_init F junk) 500 c = some (m s1.depth_mid (4 * i + c)) := by
    intro i c hi hc
    rw [hm2 s1.depth_mid (4 * i + c) (by rw [a1, a3]; exact hbuf), a1]
    exact a9 i c hi hc
  obtain ⟨e0, e1, e2, e3⟩ := depth_colour_eq (t_gamma_init_read_500 hF junk)
  refine ⟨_, hm, hdd, hgd, ?_, ?_, ?_, ?_⟩
  · intro later
    cases later <;> simp [idle, hdd, hgd]
  · intro i c hi hc
    rw [c3, c5]
    exact hpix i c hi hc
  · intro i hi
    rw [c3, c5]
    have f0 := (hpix i 0 hi (by decide)).symm.trans e0
    have f1 := (hpix i 1 hi (by decide)).symm.trans e1
    have f2 := (hpix i 2 hi (by decide)).symm.trans e2
    have f3 := (hpix i 3 hi (by decide)).symm.trans e3
    simp only [Option.some.injEq] at f0 f1 f2 f3
    exact ⟨f0, f1, f2, f3⟩
  · intro j hj
    rw [c3, c7]
    exact hm1 j hj

theorem end_to_end_scenario_witness :
    exact_ops.accurate ∧ s_init.depth_mid ≠ s_init.rgb_back ∧
    s_init.got_depth = 0 ∧ s_init.got_rgb = 0 ∧
    ∃ s1, depth_cb (t_gamma_init exact_ops (fun _ => 0)) s_init (frame_const 500) = some s1 ∧
      ∃ s2, rgb_cb { s1 with mem := video_fill s1.mem s1.rgb_back 200 } s1.rgb_back
          = .completed s2 ∧
        s2.got_depth ≠ 0 ∧ s2.got_rgb ≠ 0 ∧ (∀ later, idle s2 later = .redisplay) ∧
        (∀ i, i < 640 * 480 →
          (DrawGLScene s2).mem (DrawGLScene s2).depth_front (4 * i + 0) = 255 ∧
          (DrawGLScene s2).mem (DrawGLScene s2).depth_front (4 * i + 1) = 222 ∧
          (DrawGLScene s2).mem (DrawGLScene s2).depth_front (4 * i + 2) = 222 ∧
          (DrawGLScene s2).mem (DrawGLScene s2).depth_front (4 * i + 3) = 128) ∧
        (∀ j, j < 640 * 480 * 3 →
          (DrawGLScene s2).mem (DrawGLScene s2).rgb_front j = 200) := by
  obtain ⟨s1, h1, h2⟩ := end_to_end_scenario exact_ops (fun _ => 0) s_init
    exact_ops_accurate (by decide) rfl rfl
  obtain ⟨s2, b1, b2, b3, b4, _, b6, b7⟩ := h2 (video_fill s1.mem s1.rgb_back 200)
    (fun j _ => by simp [video_fill]) (fun q j hq => by simp [video_fill, hq])
  exact ⟨exact_ops_accurate, by decide, rfl, rfl, s1, h1, s2, b1, b2, b3, b4, b6, b7⟩

end Regview
